import Mathlib

/-!
# Verification of the datafix serialization core

A shallow embedding of the `datafix` codec framework (Rust) and proofs of
the specification claims about it.

Conventions of the embedding:
* Rust `f64` values are modelled as rationals (`Rat`): every finite double
  is a rational, and the double-specific rounding performed by the integer
  `as f64` casts is modelled explicitly by `roundF64Int` (round to nearest,
  ties to even, at 53 significant bits).
* `DataResult<T>` is `Except DataError T`.
* Traits of function signatures (`CodecOps`, `Codec`) become structures of
  functions; the mutable views become pure values (association lists for
  maps, lists for lists), with mutation through a reference modelled as
  functional replacement.
-/

/-- Modelled from the spec: the error taxonomy of section 7 (the `result`
module with `DataError` / `DataResult` is not part of the provided sources;
the source code refers to `DataError::new_custom`, `KeyNotFoundInMap` and
`ListIndexOutOfBounds`). -/
inductive DataError where
  | shapeMismatch (expected actual : String)
  | keyNotFound (key : String)
  | indexOutOfBounds (index length : Nat)
  | custom (message : String)
  deriving DecidableEq, Repr

/-- `DataResult<T>` from the `result` module: a fallible value. -/
abbrev DataResult (α : Type) : Type := Except DataError α

deriving instance DecidableEq for Except

/-- Embedding of the trait `CodecOps<T>` of `src/serialization/ops/mod.rs`:
the primitive constructor/destructor contract a representation backend
implements.  `get_list` / `get_map` return views; a list view is modelled by
the list of the node's elements, a map view by the association list of the
node's fields. -/
structure CodecOps (T : Type) where
  create_number : Rat → T
  create_string : String → T
  create_boolean : Bool → T
  create_list : List T → T
  create_map : List (String × T) → T
  create_unit : T
  get_number : T → DataResult Rat
  get_string : T → DataResult String
  get_boolean : T → DataResult Bool
  get_list : T → DataResult (List T)
  get_map : T → DataResult (List (String × T))
  get_unit : T → DataResult Unit

/-- Embedding of the default method `CodecOps::create_map_special` of
`src/src/serialization/ops/mod.rs` (lines 48-55): the body is
`pairs.into_iter().flatten().filter_map(|x| x.ok())` followed by
`Ok(self.create_map(iter1))` — absent (`None`) entries are flattened away
and erroring entries are dropped by `filter_map`. -/
def CodecOps.create_map_special (ops : CodecOps T)
    (pairs : List (Option (DataResult (String × T)))) : DataResult T :=
  Except.ok (ops.create_map ((pairs.filterMap id).filterMap Except.toOption))

/-- The entry-collection loop of `CodecOps::create_map_special` in
`src/datafix/src/serialization/ops/mod.rs` (lines 78-90): `None` entries
are flattened away, the first `Err` entry is returned, `Ok` entries are
pushed in order. -/
def datafixCollect : List (Option (DataResult (String × T))) → DataResult (List (String × T))
  | [] => Except.ok []
  | none :: rest => datafixCollect rest
  | some (Except.error e) :: _ => Except.error e
  | some (Except.ok v) :: rest => (datafixCollect rest).map (fun tl => v :: tl)

/-- Embedding of `CodecOps::create_map_special` as implemented in the
`src/datafix` copy of the trait: collect entries fail-fast, then build the
map from the collected ones. -/
def CodecOps.create_map_special_dfx (ops : CodecOps T)
    (pairs : List (Option (DataResult (String × T)))) : DataResult T :=
  (datafixCollect pairs).map ops.create_map

/-- Embedding of the trait `Codec<Type, OpsType, Ops>` of
`src/serialization/mod.rs`: paired encode/decode against a backend. -/
structure Codec (α T : Type) where
  encode : CodecOps T → α → DataResult T
  decode : CodecOps T → T → DataResult α

/-! ## Map view

`MapView::get` returns the value under a key (first matching binding) or a
`KeyNotFoundInMap` error; `update` is the trait's default method
(`src/src/serialization/ops/mod.rs` lines 71-75):
`if let Ok(v) = self.get(name) { f(v) }` — mutation through the returned
reference is modelled as functional replacement of that binding. -/

/-- `MapView::get`: look the key up, `KeyNotFoundInMap` on a miss. -/
def MapView.get (m : List (String × T)) (name : String) : DataResult T :=
  match List.lookup name m with
  | some v => Except.ok v
  | none => Except.error (DataError.keyNotFound name)

/-- Replacement of the first binding of `name` by `f` of its value: the
functional reading of mutating through the reference `MapView::get` hands
out. -/
def modifyFirst (m : List (String × T)) (name : String) (f : T → T) : List (String × T) :=
  match m with
  | [] => []
  | (k, v) :: rest =>
    if k = name then (k, f v) :: rest else (k, v) :: modifyFirst rest name f

/-- Embedding of the default method `MapView::update`
(`src/src/serialization/ops/mod.rs` lines 71-75, identical to
`MapViewMut::update` of the datafix copy, lines 116-120): apply `f` through
the reference when `get` succeeds, do nothing when it fails. -/
def MapView.update (m : List (String × T)) (name : String) (f : T → T) :
    List (String × T) :=
  match MapView.get m name with
  | Except.ok _ => modifyFirst m name f
  | Except.error _ => m

/-! ## The double-precision model of the numeric casts

`impl_f64_convertable!` (`src/src/serialization/builtins/codecs.rs` lines
77-101) gives every listed integer type `into_f64(self) = self as f64` and
`from_f64(value) = value as $t`.  An integer-to-`f64` cast rounds to the
nearest double (ties to even) at 53 significant bits; an `f64`-to-integer
`as` cast rounds toward zero and saturates at the target type's bounds. -/

/-- Base-2 logarithm by structural recursion on a fuel argument, so that
it reduces inside the kernel; it agrees with the mathematical logarithm
whenever `n < 2 ^ fuel`. -/
def log2Fuel : Nat → Nat → Nat
  | 0, _ => 0
  | fuel + 1, n => if 2 ≤ n then log2Fuel fuel (n / 2) + 1 else 0

/-- Round a natural number to the nearest value representable as an IEEE-754
double (53 significant bits), ties to even.  Exact below `2^53`.  The fuel
`1100` makes the bit length exact for every value below `2^1100`, far above
both the 64-bit integer inputs of the casts and the finite range of a
double. -/
def roundF64Nat (a : Nat) : Nat :=
  if a < 2 ^ 53 then a
  else
    let k := log2Fuel 1100 a + 1
    let ulp := 2 ^ (k - 53)
    let q := a / ulp
    let r := a % ulp
    if 2 * r < ulp then q * ulp
    else if ulp < 2 * r then (q + 1) * ulp
    else if q % 2 = 0 then q * ulp else (q + 1) * ulp

/-- `n as f64` for an integer `n`: round to the nearest double. -/
def roundF64Int (n : Int) : Int :=
  n.sign * roundF64Nat n.natAbs

/-- Truncation of a rational toward zero, as the `f64`-to-integer `as` cast
does before saturating. -/
def ratTrunc (q : Rat) : Int :=
  Int.tdiv q.num (q.den : Int)

/-- `value as $t` for an integer target type with bounds `lo..=hi`: round
toward zero, then saturate at the bounds (Rust 1.45+ saturating cast
semantics; `NaN`, which the model omits, is out of scope). -/
def castF64ToInt (lo hi : Int) (q : Rat) : Int :=
  if ratTrunc q < lo then lo
  else if hi < ratTrunc q then hi
  else ratTrunc q

/-! ## Primitive codecs (`src/src/serialization/builtins/codecs.rs`) -/

/-- `F64Codec` (lines 15-25): encode wraps `create_number` in `Ok`, decode
is `get_number`. -/
def F64Codec {T : Type} : Codec Rat T where
  encode ops value := Except.ok (ops.create_number value)
  decode ops value := ops.get_number value

/-- `StringCodec` (lines 33-43): encode wraps `create_string` in `Ok`,
decode is `get_string`. -/
def StringCodec {T : Type} : Codec String T where
  encode ops value := Except.ok (ops.create_string value)
  decode ops value := ops.get_string value

/-- `BoolCodec` (lines 51-61): encode wraps `create_boolean` in `Ok`,
decode is `get_boolean`. -/
def BoolCodec {T : Type} : Codec Bool T where
  encode ops value := Except.ok (ops.create_boolean value)
  decode ops value := ops.get_boolean value

/-- The two functions of the `F64Convertable` trait (lines 69-75). -/
structure F64Convertable (N : Type) where
  into_f64 : N → Rat
  from_f64 : Rat → N

/-- `NumberCodec<N>` (lines 103-115): encode is
`Ok(create_number(value.into_f64()))`, decode is
`Ok(N::from_f64(get_number(value)?))`. -/
def NumberCodec (conv : F64Convertable N) : Codec N T where
  encode ops value := Except.ok (ops.create_number (conv.into_f64 value))
  decode ops value := (ops.get_number value).map conv.from_f64

/-- The `F64Convertable` implementation `impl_f64_convertable!` generates
for an integer type with bounds `lo..=hi`, with the machine integers
modelled as the integers in that range. -/
def intConvertable (lo hi : Int) : F64Convertable Int where
  into_f64 n := (roundF64Int n : Rat)
  from_f64 q := castF64ToInt lo hi q

/-- The default codec of an integer type with bounds `lo..=hi`: a
`NumberCodec` over its generated `F64Convertable`. -/
def intNumberCodec (lo hi : Int) {T : Type} : Codec Int T :=
  NumberCodec (intConvertable lo hi)

/-- The `i32` default codec (`impl_f64_convertable! { ..., i32, ... }`). -/
def i32Codec {T : Type} : Codec Int T := intNumberCodec (-(2 ^ 31)) (2 ^ 31 - 1)

/-- The `i64` default codec. -/
def i64Codec {T : Type} : Codec Int T := intNumberCodec (-(2 ^ 63)) (2 ^ 63 - 1)

/-- The `u64` default codec. -/
def u64Codec {T : Type} : Codec Int T := intNumberCodec 0 (2 ^ 64 - 1)

/-- The `u8` default codec. -/
def u8Codec {T : Type} : Codec Int T := intNumberCodec 0 255

/-! ## The JSON-shaped backend

`JsonOps` lives in `src/serialization/ops/json.rs`, which is not among the
provided sources; it is the backend every test of `codecs.rs` runs
against. -/

/-- Modelled from the spec: the representation value of section 3 with the
JSON mapping of section 6 (the file `ops/json.rs` implementing `JsonOps` is
not part of the provided sources) — number, string, boolean, list and map
nodes; the unit shape is an empty map. -/
inductive JsonValue where
  | number (n : Rat)
  | str (s : String)
  | bool (b : Bool)
  | arr (xs : List JsonValue)
  | obj (fields : List (String × JsonValue))

/-- The shape name of a node, for shape-mismatch errors. -/
def JsonValue.shapeName : JsonValue → String
  | JsonValue.number _ => "number"
  | JsonValue.str _ => "string"
  | JsonValue.bool _ => "boolean"
  | JsonValue.arr _ => "list"
  | JsonValue.obj _ => "map"

/-- Modelled from the spec: the `CodecOps` implementation of the JSON
backend (`JsonOps`, `ops/json.rs`, not among the provided sources):
constructors build the corresponding node, destructors fail with a
shape-mismatch error naming the requested and the actual shape (section 6),
and the unit shape is the empty map. -/
def JsonOps : CodecOps JsonValue where
  create_number n := JsonValue.number n
  create_string s := JsonValue.str s
  create_boolean b := JsonValue.bool b
  create_list xs := JsonValue.arr xs
  create_map fields := JsonValue.obj fields
  create_unit := JsonValue.obj []
  get_number v :=
    match v with
    | JsonValue.number n => Except.ok n
    | other => Except.error (DataError.shapeMismatch "number" other.shapeName)
  get_string v :=
    match v with
    | JsonValue.str s => Except.ok s
    | other => Except.error (DataError.shapeMismatch "string" other.shapeName)
  get_boolean v :=
    match v with
    | JsonValue.bool b => Except.ok b
    | other => Except.error (DataError.shapeMismatch "boolean" other.shapeName)
  get_list v :=
    match v with
    | JsonValue.arr xs => Except.ok xs
    | other => Except.error (DataError.shapeMismatch "list" other.shapeName)
  get_map v :=
    match v with
    | JsonValue.obj fields => Except.ok fields
    | other => Except.error (DataError.shapeMismatch "map" other.shapeName)
  get_unit v :=
    match v with
    | JsonValue.obj [] => Except.ok ()
    | other => Except.error (DataError.shapeMismatch "unit" other.shapeName)

/-! ## Combinators (`src/src/serialization/builtins/codecs.rs`) -/

/-- The element loop of `ListCodec::encode` (lines 123-129): encode each
element in order, aborting at the first failing element. -/
def encodeElems (inner : Codec α T) (ops : CodecOps T) : List α → DataResult (List T)
  | [] => Except.ok []
  | x :: rest =>
    match inner.encode ops x with
    | Except.error e => Except.error e
    | Except.ok t =>
      match encodeElems inner ops rest with
      | Except.error e => Except.error e
      | Except.ok ts => Except.ok (t :: ts)

/-- The element loop of `ListCodec::decode` (lines 131-138): decode each
element of the list view in order, aborting at the first failure. -/
def decodeElems (inner : Codec α T) (ops : CodecOps T) : List T → DataResult (List α)
  | [] => Except.ok []
  | x :: rest =>
    match inner.decode ops x with
    | Except.error e => Except.error e
    | Except.ok v =>
      match decodeElems inner ops rest with
      | Except.error e => Except.error e
      | Except.ok vs => Except.ok (v :: vs)

/-- `ListCodec` (lines 117-139): encode the elements then `create_list`;
decode via `get_list` then the element loop. -/
def ListCodec (inner : Codec α T) : Codec (List α) T where
  encode ops value :=
    match encodeElems inner ops value with
    | Except.error e => Except.error e
    | Except.ok ts => Except.ok (ops.create_list ts)
  decode ops value :=
    match ops.get_list value with
    | Except.error e => Except.error e
    | Except.ok list => decodeElems inner ops list

/-- `XMapCodec` (lines 141-167): encode through `f2`, decode through `f1`. -/
def XMapCodec (inner : Codec α T) (f1 : α → β) (f2 : β → α) : Codec β T where
  encode ops value := inner.encode ops (f2 value)
  decode ops value := (inner.decode ops value).map f1

/-- `PairCodec` (lines 169-192): encode to the two-key map
`[("left", …), ("right", …)]`; decode via a map view, fetching and decoding
`"left"` then `"right"`. -/
def PairCodec (left : Codec L T) (right : Codec R T) : Codec (L × R) T where
  encode ops value :=
    match left.encode ops value.1 with
    | Except.error e => Except.error e
    | Except.ok l =>
      match right.encode ops value.2 with
      | Except.error e => Except.error e
      | Except.ok r => Except.ok (ops.create_map [("left", l), ("right", r)])
  decode ops value :=
    match ops.get_map value with
    | Except.error e => Except.error e
    | Except.ok obj =>
      match MapView.get obj "left" with
      | Except.error e => Except.error e
      | Except.ok lv =>
        match left.decode ops lv with
        | Except.error e => Except.error e
        | Except.ok p1 =>
          match MapView.get obj "right" with
          | Except.error e => Except.error e
          | Except.ok rv =>
            match right.decode ops rv with
            | Except.error e => Except.error e
            | Except.ok p2 => Except.ok (p1, p2)

/-- The `RangeBounds` start/end bound of the Rust standard library. -/
inductive BoundKind (α : Type) where
  | included (a : α)
  | excluded (a : α)
  | unbounded

/-- A `RangeBounds` value: a start bound and an end bound.  `1..30` is
`⟨included 1, excluded 30⟩`. -/
structure RangeB (α : Type) where
  start_b : BoundKind α
  end_b : BoundKind α

/-- `RangeBounds::contains`: both bounds hold. -/
def RangeB.containsV [LinearOrder α] (r : RangeB α) (x : α) : Bool :=
  (match r.start_b with
    | BoundKind.included a => decide (a ≤ x)
    | BoundKind.excluded a => decide (a < x)
    | BoundKind.unbounded => true)
  && (match r.end_b with
    | BoundKind.included a => decide (x ≤ a)
    | BoundKind.excluded a => decide (x < a)
    | BoundKind.unbounded => true)

/-- `BoundedCodec` (lines 194-233): encode rejects out-of-range input
before delegating; decode delegates, then rejects an out-of-range result.
The `Debug`-formatted bound text of the source's error message is
abstracted to a fixed `custom` message. -/
def BoundedCodec [LinearOrder α] (codec : Codec α T) (range : RangeB α) : Codec α T where
  encode ops value :=
    if ¬ (range.containsV value) then
      Except.error (DataError.custom "value must be in bounds of start to end")
    else codec.encode ops value
  decode ops value :=
    match codec.decode ops value with
    | Except.error e => Except.error e
    | Except.ok decoded =>
      if range.containsV decoded then Except.ok decoded
      else Except.error (DataError.custom "value must be in bounds of start to end")

/-- `DynamicCodec` (lines 235-247): a boxed codec; encode and decode
delegate to the boxed codec through the pointer. -/
def DynamicCodec (codec : Codec α T) : Codec α T where
  encode ops value := codec.encode ops value
  decode ops value := codec.decode ops value

/-- `ArcCodec` (lines 249-261): an `Arc`-shared codec; encode and decode
delegate to the shared codec through the pointer. -/
def ArcCodec (codec : Codec α T) : Codec α T where
  encode ops value := codec.encode ops value
  decode ops value := codec.decode ops value

/-- Modelled from the spec: `try_else(other)` of section 4.3 (the file
`builtins/codecs.rs` portion defining `TryElseCodec` is referenced from
`serialization/mod.rs` but not among the provided sources) — attempt this
codec, on failure in either direction fall back to `other`, failing only if
both fail. -/
def TryElseCodec (lc rc : Codec α T) : Codec α T where
  encode ops value :=
    match lc.encode ops value with
    | Except.ok t => Except.ok t
    | Except.error _ => rc.encode ops value
  decode ops value :=
    match lc.decode ops value with
    | Except.ok v => Except.ok v
    | Except.error _ => rc.decode ops value

/-- Modelled from the spec: `or_else(default_fn)` of section 4.3
(`OrElseCodec` is referenced from `serialization/mod.rs` but not among the
provided sources) — decode-only fallback substituting a freshly computed
default; encode is unaffected. -/
def OrElseCodec (codec : Codec α T) (default : Unit → α) : Codec α T where
  encode ops value := codec.encode ops value
  decode ops value :=
    match codec.decode ops value with
    | Except.ok v => Except.ok v
    | Except.error _ => Except.ok (default ())

/-- Modelled from the spec: `either(left, right)` of section 4.3
(`EitherCodec` is referenced from `serialization/mod.rs` but not among the
provided sources) — decode attempts the left arm, falling back to the right
arm on failure; encode dispatches on the occupied arm. -/
def EitherCodec (lc : Codec α T) (rc : Codec β T) : Codec (α ⊕ β) T where
  encode ops value :=
    match value with
    | Sum.inl a => lc.encode ops a
    | Sum.inr b => rc.encode ops b
  decode ops value :=
    match lc.decode ops value with
    | Except.ok a => Except.ok (Sum.inl a)
    | Except.error _ => (rc.decode ops value).map Sum.inr

/-! ## The recursive-codec placeholder (`src/src/serialization/mod.rs`,
`Codecs::recursive`, lines 211-248)

The placeholder's closures read a shared cell
(`Rc<RefCell<Option<ArcCodec<…>>>>`) and `expect(…)` its content: before
the backpatch the cell is `None` and the `expect` panics; after
`*placeholder.borrow_mut() = Some(codec.clone())` it holds the built codec
and the closures delegate to it.  A panic is not a `DataResult`, so calls
are modelled in an outcome type `RunResult` separating panics from returned
`DataResult` values, and codecs invoked under a given cell state take that
state as a parameter (the cell is written exactly once, before any external
call, so every call sees one fixed state). -/

/-- The outcome of running an encode/decode call: a panic (a fatal,
non-`Result` failure) or a returned `DataResult`. -/
inductive RunResult (α : Type) where
  | panicked (message : String)
  | ok (r : DataResult α)

/-- A codec whose invocation can panic, the type of the
`FnCodec`-backed placeholder of `Codecs::recursive`. -/
structure PCodec (α T : Type) where
  encode : CodecOps T → α → RunResult T
  decode : CodecOps T → T → RunResult α

/-- Lift an ordinary codec: every call returns its `DataResult`, no call
panics. -/
def Codec.lift (c : Codec α T) : PCodec α T where
  encode ops value := RunResult.ok (c.encode ops value)
  decode ops value := RunResult.ok (c.decode ops value)

/-- The `FnCodec` placeholder of `Codecs::recursive` (lines 224-241), as a
function of the cell's content at call time: both closures
`borrow()` the cell and `expect("tried to decode before initialization")`
— `None` panics with that message, `Some(codec)` delegates to the stored
codec. -/
def recursivePlaceholder (cell : Option (PCodec α T)) : PCodec α T where
  encode ops value :=
    match cell with
    | none => RunResult.panicked "tried to decode before initialization"
    | some c => c.encode ops value
  decode ops value :=
    match cell with
    | none => RunResult.panicked "tried to decode before initialization"
    | some c => c.decode ops value

/-- The round-trip law of the spec, for one codec, backend and value:
encoding succeeds and decoding the produced representation returns the
value. -/
def RoundTrips (ops : CodecOps T) (c : Codec α T) (v : α) : Prop :=
  ∃ t, c.encode ops v = Except.ok t ∧ c.decode ops t = Except.ok v

/-- The composite decode-after-encode of a codec on the JSON backend, the
subject of the round-trip law. -/
def jsonRoundTrip (c : Codec α JsonValue) (v : α) : DataResult α :=
  match c.encode JsonOps v with
  | Except.error e => Except.error e
  | Except.ok t => c.decode JsonOps t

/-- The concrete range `1..30` of the bounded-codec test. -/
def range1to30 : RangeB Int := ⟨BoundKind.included 1, BoundKind.excluded 30⟩

/-! ## Theorems -/

/-- C10: The primitive codecs' encode direction is infallible: for every
backend and every input value, `F64Codec::encode`, `StringCodec::encode`
and `BoolCodec::encode` always return `Ok` (of the corresponding
constructor's node). -/
theorem primitive_encode_infallible :
    ∀ (T : Type) (ops : CodecOps T) (q : Rat) (s : String) (b : Bool),
      (F64Codec (T := T)).encode ops q = Except.ok (ops.create_number q) ∧
      (StringCodec (T := T)).encode ops s = Except.ok (ops.create_string s) ∧
      (BoolCodec (T := T)).encode ops b = Except.ok (ops.create_boolean b) :=
  fun _ _ _ _ _ => ⟨rfl, rfl, rfl⟩

/-- C7: Wrapping a codec behind `dynamic()` or `arc()` preserves encode and
decode exactly, for every backend, value and representation; hence a
round-trip law of the inner codec transfers to the wrapped codec. -/
theorem dynamic_arc_transparent :
    ∀ (α T : Type) (c : Codec α T) (ops : CodecOps T) (v : α) (t : T),
      (DynamicCodec c).encode ops v = c.encode ops v ∧
      (DynamicCodec c).decode ops t = c.decode ops t ∧
      (ArcCodec c).encode ops v = c.encode ops v ∧
      (ArcCodec c).decode ops t = c.decode ops t ∧
      (RoundTrips ops c v →
        RoundTrips ops (DynamicCodec c) v ∧ RoundTrips ops (ArcCodec c) v) := by
  intro α T c ops v t
  refine ⟨rfl, rfl, rfl, rfl, ?_⟩
  rintro ⟨u, he, hd⟩
  exact ⟨⟨u, he, hd⟩, ⟨u, he, hd⟩⟩

/-- Witness for C7: wrapping `F64Codec` on the JSON backend at the value
`10` preserves the round-trip. -/
theorem dynamic_arc_transparent_witness :
    RoundTrips JsonOps (DynamicCodec (F64Codec)) 10 ∧
    RoundTrips JsonOps (ArcCodec (F64Codec)) 10 :=
  (dynamic_arc_transparent Rat JsonValue F64Codec JsonOps 10
      (JsonValue.number 10)).2.2.2.2 ⟨JsonValue.number 10, rfl, rfl⟩

/-- C1 (the `src/src` copy of `create_map_special` contradicts the claimed
fail-fast contract): the first conjunct shows the `src/src` implementation
never returns an error for any backend and any entry list — an erroring
present entry cannot short-circuit; the second evaluates it at the failing
input `[Some(Err(custom "boom"))]`, yielding `Ok` of an empty map instead
of the error; the third shows `None` entries are skipped (omitted, not
written as null); the last shows the `src/datafix` copy returns the first
error at the same failing input, as the claim states. -/
theorem create_map_special_src_never_errors :
    (∀ (T : Type) (ops : CodecOps T) (pairs : List (Option (DataResult (String × T)))),
      ∃ t, ops.create_map_special pairs = Except.ok t) ∧
    JsonOps.create_map_special [some (Except.error (DataError.custom "boom"))] =
      Except.ok (JsonValue.obj []) ∧
    JsonOps.create_map_special
        [none, some (Except.ok ("a", JsonValue.number 1))] =
      Except.ok (JsonValue.obj [("a", JsonValue.number 1)]) ∧
    JsonOps.create_map_special_dfx [some (Except.error (DataError.custom "boom"))] =
      Except.error (DataError.custom "boom") :=
  ⟨fun _ ops pairs => ⟨ops.create_map ((pairs.filterMap id).filterMap Except.toOption), rfl⟩,
    rfl, rfl, rfl⟩

/-- C9: every integer default codec derived through `F64Convertable`
decodes successfully whenever `get_number` succeeds, applying the plain
`as` cast (truncate toward zero, saturate at the type's bounds): a
non-integral number such as `10.7` through the `i32` codec yields `Ok 10`,
and numbers outside the target range saturate to the bounds instead of
being rejected. -/
theorem number_codec_casts :
    (∀ (lo hi : Int) (T : Type) (ops : CodecOps T) (v : T) (q : Rat),
      ops.get_number v = Except.ok q →
        (intNumberCodec lo hi).decode ops v = Except.ok (castF64ToInt lo hi q)) ∧
    (i32Codec (T := JsonValue)).decode JsonOps (JsonValue.number (mkRat 107 10)) =
      Except.ok 10 ∧
    (i32Codec (T := JsonValue)).decode JsonOps (JsonValue.number ((2 ^ 40 : Int) : Rat)) =
      Except.ok (2 ^ 31 - 1) ∧
    (i32Codec (T := JsonValue)).decode JsonOps (JsonValue.number ((-(2 ^ 40) : Int) : Rat)) =
      Except.ok (-(2 ^ 31)) := by
  refine ⟨?_, by decide, by decide, by decide⟩
  intro lo hi T ops v q h
  simp [intNumberCodec, NumberCodec, intConvertable, h, Except.map]

/-- Witness for C9: the general cast statement applied at the `u8` bounds,
the JSON backend and the number `5`. -/
theorem number_codec_casts_witness :
    (intNumberCodec 0 255 (T := JsonValue)).decode JsonOps (JsonValue.number 5) =
      Except.ok (castF64ToInt 0 255 5) :=
  number_codec_casts.1 0 255 JsonValue JsonOps (JsonValue.number 5) 5 rfl

/-- Looking up the updated key after `modifyFirst` finds the function
applied to the stored value. -/
lemma lookup_modifyFirst_self (m : List (String × T)) (name : String) (f : T → T)
    (v : T) (h : List.lookup name m = some v) :
    List.lookup name (modifyFirst m name f) = some (f v) := by
  induction m with
  | nil => simp [List.lookup] at h
  | cons kv rest ih =>
    obtain ⟨k, w⟩ := kv
    by_cases hk : k = name
    · subst hk
      simp [List.lookup] at h
      simp [modifyFirst, List.lookup, h]
    · have hne : (name == k) = false := by
        simp [Ne.symm hk]
      simp [List.lookup, hne] at h
      simp [modifyFirst, hk, List.lookup, hne, ih h]

/-- `modifyFirst` leaves every other key's lookup unchanged. -/
lemma lookup_modifyFirst_other (m : List (String × T)) (name : String) (f : T → T)
    (k : String) (hk : k ≠ name) :
    List.lookup k (modifyFirst m name f) = List.lookup k m := by
  induction m with
  | nil => simp [modifyFirst]
  | cons kv rest ih =>
    obtain ⟨k₀, w⟩ := kv
    by_cases h0 : k₀ = name
    · subst h0
      have hne : (k == k₀) = false := by simp [hk]
      simp [modifyFirst, List.lookup, hne]
    · simp only [modifyFirst, if_neg h0]
      by_cases hkk : k = k₀
      · subst hkk
        simp [List.lookup]
      · have hne : (k == k₀) = false := by simp [hkk]
        simp [List.lookup, hne, ih]

/-- C8: `MapView::update(key, f)` applies `f` to the value stored under the
key when the key is present (leaving all other keys untouched), and is a
no-op when the key is absent: the map is returned completely unchanged and
no error is raised (the operation is total and returns the map in every
case). -/
theorem map_view_update_spec :
    ∀ (T : Type) (m : List (String × T)) (name : String) (f : T → T),
      (∀ v, List.lookup name m = some v →
        MapView.update m name f = modifyFirst m name f ∧
        List.lookup name (MapView.update m name f) = some (f v)) ∧
      (∀ k, k ≠ name → List.lookup k (MapView.update m name f) = List.lookup k m) ∧
      (List.lookup name m = none → MapView.update m name f = m) := by
  intro T m name f
  refine ⟨?_, ?_, ?_⟩
  · intro v hv
    have hupd : MapView.update m name f = modifyFirst m name f := by
      simp [MapView.update, MapView.get, hv]
    exact ⟨hupd, by rw [hupd]; exact lookup_modifyFirst_self m name f v hv⟩
  · intro k hk
    cases hcase : List.lookup name m with
    | none => simp [MapView.update, MapView.get, hcase]
    | some v =>
      have hupd : MapView.update m name f = modifyFirst m name f := by
        simp [MapView.update, MapView.get, hcase]
      rw [hupd, lookup_modifyFirst_other m name f k hk]
  · intro hnone
    simp [MapView.update, MapView.get, hnone]

/-- Witness for C8: updating the present key `"a"` applies the function;
updating the absent key `"b"` leaves the one-entry map unchanged. -/
theorem map_view_update_spec_witness :
    List.lookup "a"
        (MapView.update [("a", JsonValue.number 1)] "a" (fun _ => JsonValue.number 2)) =
      some (JsonValue.number 2) ∧
    MapView.update [("a", JsonValue.number 1)] "b" (fun _ => JsonValue.number 2) =
      [("a", JsonValue.number 1)] :=
  ⟨((map_view_update_spec JsonValue [("a", JsonValue.number 1)] "a"
      (fun _ => JsonValue.number 2)).1 (JsonValue.number 1) rfl).2,
    (map_view_update_spec JsonValue [("a", JsonValue.number 1)] "b"
      (fun _ => JsonValue.number 2)).2.2 rfl⟩

/-- C3: the `bounded(range)` combinator: encode returns the bounds error
for every out-of-range value — the result is the same for every inner
codec, so the inner codec is never consulted — and an encode that returns
`Ok` implies the value was in range; decode propagates inner errors,
rejects an in-range-violating decoded value, accepts an in-range one, and
a decode that returns `Ok` only hands out in-range values.  For the range
`1..30` with the `i32` codec on the JSON backend: `15` round-trips, `1`
encodes (inclusive lower bound), `30` and `75` fail. -/
theorem bounded_codec_guards :
    (∀ (α T : Type) [LinearOrder α] (inner : Codec α T) (range : RangeB α)
        (ops : CodecOps T) (v : α),
      range.containsV v = false →
        (BoundedCodec inner range).encode ops v =
          Except.error (DataError.custom "value must be in bounds of start to end")) ∧
    (∀ (α T : Type) [LinearOrder α] (inner : Codec α T) (range : RangeB α)
        (ops : CodecOps T) (v : α) (t : T),
      (BoundedCodec inner range).encode ops v = Except.ok t →
        range.containsV v = true ∧ inner.encode ops v = Except.ok t) ∧
    (∀ (α T : Type) [LinearOrder α] (inner : Codec α T) (range : RangeB α)
        (ops : CodecOps T) (t : T) (e : DataError),
      inner.decode ops t = Except.error e →
        (BoundedCodec inner range).decode ops t = Except.error e) ∧
    (∀ (α T : Type) [LinearOrder α] (inner : Codec α T) (range : RangeB α)
        (ops : CodecOps T) (t : T) (d : α),
      inner.decode ops t = Except.ok d → range.containsV d = false →
        (BoundedCodec inner range).decode ops t =
          Except.error (DataError.custom "value must be in bounds of start to end")) ∧
    (∀ (α T : Type) [LinearOrder α] (inner : Codec α T) (range : RangeB α)
        (ops : CodecOps T) (t : T) (d : α),
      inner.decode ops t = Except.ok d → range.containsV d = true →
        (BoundedCodec inner range).decode ops t = Except.ok d) ∧
    (∀ (α T : Type) [LinearOrder α] (inner : Codec α T) (range : RangeB α)
        (ops : CodecOps T) (t : T) (d : α),
      (BoundedCodec inner range).decode ops t = Except.ok d →
        range.containsV d = true) ∧
    ((BoundedCodec (i32Codec (T := JsonValue)) range1to30).encode JsonOps 15 =
        Except.ok (JsonValue.number ((15 : Int) : Rat)) ∧
      (BoundedCodec (i32Codec (T := JsonValue)) range1to30).decode JsonOps
          (JsonValue.number ((15 : Int) : Rat)) = Except.ok 15) ∧
    (BoundedCodec (i32Codec (T := JsonValue)) range1to30).encode JsonOps 1 =
      Except.ok (JsonValue.number ((1 : Int) : Rat)) ∧
    (BoundedCodec (i32Codec (T := JsonValue)) range1to30).encode JsonOps 30 =
      Except.error (DataError.custom "value must be in bounds of start to end") ∧
    (BoundedCodec (i32Codec (T := JsonValue)) range1to30).encode JsonOps 75 =
      Except.error (DataError.custom "value must be in bounds of start to end") := by
  refine ⟨?_, ?_, ?_, ?_, ?_, ?_, ⟨rfl, by decide⟩, rfl, rfl, rfl⟩
  · intro α T _ inner range ops v h
    simp [BoundedCodec, h]
  · intro α T _ inner range ops v t h
    by_cases hc : range.containsV v
    · refine ⟨hc, ?_⟩
      simpa [BoundedCodec, hc] using h
    · simp [BoundedCodec, hc] at h
  · intro α T _ inner range ops t e h
    simp [BoundedCodec, h]
  · intro α T _ inner range ops t d h hc
    simp [BoundedCodec, h, hc]
  · intro α T _ inner range ops t d h hc
    simp [BoundedCodec, h, hc]
  · intro α T _ inner range ops t d h
    rcases hd : inner.decode ops t with e | d₀
    · simp [BoundedCodec, hd] at h
    · by_cases hc : range.containsV d₀
      · simp [BoundedCodec, hd, hc] at h
        subst h
        exact hc
      · simp [BoundedCodec, hd, hc] at h

/-- On the JSON backend, `create_map` builds exactly the object node. -/
lemma JsonOps_create_map (fields : List (String × JsonValue)) :
    JsonOps.create_map fields = JsonValue.obj fields := rfl

/-- On the JSON backend, a map view of an object node is its field list. -/
lemma JsonOps_get_map (fields : List (String × JsonValue)) :
    JsonOps.get_map (JsonValue.obj fields) = Except.ok fields := rfl

/-- On the JSON backend, a list view of a list node is its element list. -/
lemma JsonOps_get_list (xs : List JsonValue) :
    JsonOps.get_list (JsonValue.arr xs) = Except.ok xs := rfl

/-- C5: the pair codec encodes a pair whose components both encode
successfully to the two-key map holding the sub-encodings under `"left"`
and `"right"` — any map it returns has exactly those two keys — and
decoding fails when the `"left"` key is missing, when the `"right"` key is
missing, or when either sub-decode fails (propagating that error), and
otherwise recovers the pair.  Encoding `(15, "Hello")` with the `i32` and
string codecs yields exactly that map and decoding it recovers
`(15, "Hello")`. -/
theorem pair_codec_spec :
    (∀ (L R : Type) (lc : Codec L JsonValue) (rc : Codec R JsonValue)
        (v : L × R) (l r : JsonValue),
      lc.encode JsonOps v.1 = Except.ok l → rc.encode JsonOps v.2 = Except.ok r →
        (PairCodec lc rc).encode JsonOps v =
          Except.ok (JsonValue.obj [("left", l), ("right", r)])) ∧
    (∀ (L R : Type) (lc : Codec L JsonValue) (rc : Codec R JsonValue)
        (v : L × R) (fields : List (String × JsonValue)),
      (PairCodec lc rc).encode JsonOps v = Except.ok (JsonValue.obj fields) →
        fields.map Prod.fst = ["left", "right"]) ∧
    (∀ (L R : Type) (lc : Codec L JsonValue) (rc : Codec R JsonValue)
        (fields : List (String × JsonValue)),
      List.lookup "left" fields = none →
        (PairCodec lc rc).decode JsonOps (JsonValue.obj fields) =
          Except.error (DataError.keyNotFound "left")) ∧
    (∀ (L R : Type) (lc : Codec L JsonValue) (rc : Codec R JsonValue)
        (fields : List (String × JsonValue)) (lv : JsonValue) (p1 : L),
      List.lookup "left" fields = some lv → lc.decode JsonOps lv = Except.ok p1 →
        List.lookup "right" fields = none →
          (PairCodec lc rc).decode JsonOps (JsonValue.obj fields) =
            Except.error (DataError.keyNotFound "right")) ∧
    (∀ (L R : Type) (lc : Codec L JsonValue) (rc : Codec R JsonValue)
        (fields : List (String × JsonValue)) (lv : JsonValue) (e : DataError),
      List.lookup "left" fields = some lv → lc.decode JsonOps lv = Except.error e →
        (PairCodec lc rc).decode JsonOps (JsonValue.obj fields) = Except.error e) ∧
    (∀ (L R : Type) (lc : Codec L JsonValue) (rc : Codec R JsonValue)
        (fields : List (String × JsonValue)) (lv rv : JsonValue) (p1 : L) (e : DataError),
      List.lookup "left" fields = some lv → lc.decode JsonOps lv = Except.ok p1 →
        List.lookup "right" fields = some rv → rc.decode JsonOps rv = Except.error e →
          (PairCodec lc rc).decode JsonOps (JsonValue.obj fields) = Except.error e) ∧
    (∀ (L R : Type) (lc : Codec L JsonValue) (rc : Codec R JsonValue)
        (fields : List (String × JsonValue)) (lv rv : JsonValue) (p1 : L) (p2 : R),
      List.lookup "left" fields = some lv → lc.decode JsonOps lv = Except.ok p1 →
        List.lookup "right" fields = some rv → rc.decode JsonOps rv = Except.ok p2 →
          (PairCodec lc rc).decode JsonOps (JsonValue.obj fields) =
            Except.ok (p1, p2)) ∧
    (PairCodec (i32Codec (T := JsonValue)) StringCodec).encode JsonOps (15, "Hello") =
      Except.ok (JsonValue.obj [("left", JsonValue.number ((15 : Int) : Rat)),
        ("right", JsonValue.str "Hello")]) ∧
    (PairCodec (i32Codec (T := JsonValue)) StringCodec).decode JsonOps
        (JsonValue.obj [("left", JsonValue.number ((15 : Int) : Rat)),
          ("right", JsonValue.str "Hello")]) = Except.ok (15, "Hello") := by
  refine ⟨?_, ?_, ?_, ?_, ?_, ?_, ?_, rfl, rfl⟩
  · intro L R lc rc v l r hl hr
    simp [PairCodec, hl, hr, JsonOps_create_map]
  · intro L R lc rc v fields h
    rcases hl : lc.encode JsonOps v.1 with e | l
    · simp [PairCodec, hl] at h
    · rcases hr : rc.encode JsonOps v.2 with e | r
      · simp [PairCodec, hl, hr] at h
      · simp [PairCodec, hl, hr, JsonOps_create_map] at h
        rw [← h]
        rfl
  · intro L R lc rc fields hnone
    simp [PairCodec, JsonOps_get_map, MapView.get, hnone]
  · intro L R lc rc fields lv p1 hleft hdec hnone
    simp [PairCodec, JsonOps_get_map, MapView.get, hleft, hdec, hnone]
  · intro L R lc rc fields lv e hleft hdec
    simp [PairCodec, JsonOps_get_map, MapView.get, hleft, hdec]
  · intro L R lc rc fields lv rv p1 e hleft hdec hright hrdec
    simp [PairCodec, JsonOps_get_map, MapView.get, hleft, hdec, hright, hrdec]
  · intro L R lc rc fields lv rv p1 p2 hleft hdec hright hrdec
    simp [PairCodec, JsonOps_get_map, MapView.get, hleft, hdec, hright, hrdec]

/-- Witness for C5: the success path applied at the concrete fields of the
encoded pair `(15, "Hello")`. -/
theorem pair_codec_spec_witness :
    (PairCodec (i32Codec (T := JsonValue)) StringCodec).decode JsonOps
        (JsonValue.obj [("left", JsonValue.number ((15 : Int) : Rat)),
          ("right", JsonValue.str "Hello")]) = Except.ok (15, "Hello") :=
  pair_codec_spec.2.2.2.2.2.2.1 Int String i32Codec StringCodec
    [("left", JsonValue.number ((15 : Int) : Rat)), ("right", JsonValue.str "Hello")]
    (JsonValue.number ((15 : Int) : Rat)) (JsonValue.str "Hello") 15 "Hello"
    rfl (by decide) rfl rfl

/-- `encodeElems` succeeds exactly when every element encodes, producing
the elementwise encodings in order. -/
lemma encodeElems_forall2 (inner : Codec α T) (ops : CodecOps T) :
    ∀ (xs : List α) (ts : List T),
      encodeElems inner ops xs = Except.ok ts ↔
        List.Forall₂ (fun x u => inner.encode ops x = Except.ok u) xs ts := by
  intro xs
  induction xs with
  | nil =>
    intro ts
    constructor
    · intro h
      simp [encodeElems] at h
      simp [← h]
    · intro h
      cases h
      rfl
  | cons x rest ih =>
    intro ts
    constructor
    · intro h
      rcases he : inner.encode ops x with e | u
      · simp [encodeElems, he] at h
      · rcases hr : encodeElems inner ops rest with e | ts0
        · simp [encodeElems, he, hr] at h
        · simp [encodeElems, he, hr] at h
          rw [← h]
          exact List.Forall₂.cons he ((ih ts0).mp hr)
    · intro h
      cases h with
      | cons hx hrest =>
        simp [encodeElems, hx, (ih _).mpr hrest]

/-- The first failing element aborts `encodeElems` with that element's
error. -/
lemma encodeElems_first_error (inner : Codec α T) (ops : CodecOps T)
    (pre : List α) (x : α) (rest : List α) (ts : List T) (e : DataError)
    (hpre : encodeElems inner ops pre = Except.ok ts)
    (hx : inner.encode ops x = Except.error e) :
    encodeElems inner ops (pre ++ x :: rest) = Except.error e := by
  induction pre generalizing ts with
  | nil => simp [encodeElems, hx]
  | cons y ys ih =>
    rcases hy : inner.encode ops y with e0 | u
    · simp [encodeElems, hy] at hpre
    · rcases hys : encodeElems inner ops ys with e0 | ts0
      · simp [encodeElems, hy, hys] at hpre
      · simp [encodeElems, hy, ih ts0 hys]

/-- `decodeElems` succeeds exactly when every element decodes, producing
the elementwise decodings in order. -/
lemma decodeElems_forall2 (inner : Codec α T) (ops : CodecOps T) :
    ∀ (items : List T) (vs : List α),
      decodeElems inner ops items = Except.ok vs ↔
        List.Forall₂ (fun u x => inner.decode ops u = Except.ok x) items vs := by
  intro items
  induction items with
  | nil =>
    intro vs
    constructor
    · intro h
      simp [decodeElems] at h
      simp [← h]
    · intro h
      cases h
      rfl
  | cons u rest ih =>
    intro vs
    constructor
    · intro h
      rcases hu : inner.decode ops u with e | x
      · simp [decodeElems, hu] at h
      · rcases hr : decodeElems inner ops rest with e | vs0
        · simp [decodeElems, hu, hr] at h
        · simp [decodeElems, hu, hr] at h
          rw [← h]
          exact List.Forall₂.cons hu ((ih vs0).mp hr)
    · intro h
      cases h with
      | cons hx hrest =>
        simp [decodeElems, hx, (ih _).mpr hrest]

/-- The first failing element aborts `decodeElems` with that element's
error. -/
lemma decodeElems_first_error (inner : Codec α T) (ops : CodecOps T)
    (pre : List T) (x : T) (rest : List T) (vs : List α) (e : DataError)
    (hpre : decodeElems inner ops pre = Except.ok vs)
    (hx : inner.decode ops x = Except.error e) :
    decodeElems inner ops (pre ++ x :: rest) = Except.error e := by
  induction pre generalizing vs with
  | nil => simp [decodeElems, hx]
  | cons y ys ih =>
    rcases hy : inner.decode ops y with e0 | u
    · simp [decodeElems, hy] at hpre
    · rcases hys : decodeElems inner ops ys with e0 | vs0
      · simp [decodeElems, hy, hys] at hpre
      · simp [decodeElems, hy, ih vs0 hys]

/-- C6: the list codec encodes each element independently in order (encode
returns `Ok` exactly when every element encodes, producing the elementwise
encodings in order) and is fail-fast in both directions: when the elements
before `x` encode successfully and `x` fails with error `e`, the whole
encode returns `e` and no partial list; decoding a list view consumes it
element-by-element under the same rule. -/
theorem list_codec_fail_fast :
    (∀ (α T : Type) (inner : Codec α T) (ops : CodecOps T) (xs : List α) (ts : List T),
      encodeElems inner ops xs = Except.ok ts ↔
        List.Forall₂ (fun x u => inner.encode ops x = Except.ok u) xs ts) ∧
    (∀ (α T : Type) (inner : Codec α T) (ops : CodecOps T) (xs : List α) (ts : List T),
      encodeElems inner ops xs = Except.ok ts →
        (ListCodec inner).encode ops xs = Except.ok (ops.create_list ts)) ∧
    (∀ (α T : Type) (inner : Codec α T) (ops : CodecOps T)
        (pre : List α) (x : α) (rest : List α) (ts : List T) (e : DataError),
      encodeElems inner ops pre = Except.ok ts → inner.encode ops x = Except.error e →
        (ListCodec inner).encode ops (pre ++ x :: rest) = Except.error e) ∧
    (∀ (α : Type) (inner : Codec α JsonValue) (items : List JsonValue),
      (ListCodec inner).decode JsonOps (JsonValue.arr items) =
        decodeElems inner JsonOps items) ∧
    (∀ (α T : Type) (inner : Codec α T) (ops : CodecOps T)
        (items : List T) (vs : List α),
      decodeElems inner ops items = Except.ok vs ↔
        List.Forall₂ (fun u x => inner.decode ops u = Except.ok x) items vs) ∧
    (∀ (α : Type) (inner : Codec α JsonValue)
        (pre : List JsonValue) (x : JsonValue) (rest : List JsonValue)
        (vs : List α) (e : DataError),
      decodeElems inner JsonOps pre = Except.ok vs →
        inner.decode JsonOps x = Except.error e →
          (ListCodec inner).decode JsonOps (JsonValue.arr (pre ++ x :: rest)) =
            Except.error e) := by
  refine ⟨?_, ?_, ?_, ?_, ?_, ?_⟩
  · intro α T inner ops xs ts
    exact encodeElems_forall2 inner ops xs ts
  · intro α T inner ops xs ts h
    simp [ListCodec, h]
  · intro α T inner ops pre x rest ts e hpre hx
    simp [ListCodec, encodeElems_first_error inner ops pre x rest ts e hpre hx]
  · intro α inner items
    simp [ListCodec, JsonOps_get_list]
  · intro α T inner ops items vs
    exact decodeElems_forall2 inner ops items vs
  · intro α inner pre x rest vs e hpre hx
    simp [ListCodec, JsonOps_get_list,
      decodeElems_first_error inner JsonOps pre x rest vs e hpre hx]

/-- Witness for C6: with a bounded inner codec over `1..30`, encoding
`[15, 75, 20]` aborts at the first out-of-range element with its error. -/
theorem list_codec_fail_fast_witness :
    (ListCodec (BoundedCodec (i32Codec (T := JsonValue)) range1to30)).encode JsonOps
        [15, 75, 20] =
      Except.error (DataError.custom "value must be in bounds of start to end") :=
  list_codec_fail_fast.2.2.1 Int JsonValue
    (BoundedCodec (i32Codec (T := JsonValue)) range1to30) JsonOps
    [15] 75 [20] [JsonValue.number ((15 : Int) : Rat)]
    (DataError.custom "value must be in bounds of start to end") rfl rfl

/-- Witness for C3: the encode guard applied at the range `1..30` and the
out-of-range value `75`, and the decode guard at an in-range inner result. -/
theorem bounded_codec_guards_witness :
    (BoundedCodec (i32Codec (T := JsonValue)) range1to30).encode JsonOps 75 =
      Except.error (DataError.custom "value must be in bounds of start to end") ∧
    (BoundedCodec (i32Codec (T := JsonValue)) range1to30).decode JsonOps
        (JsonValue.number ((15 : Int) : Rat)) = Except.ok 15 :=
  ⟨bounded_codec_guards.1 Int JsonValue i32Codec range1to30 JsonOps 75 (by decide),
    bounded_codec_guards.2.2.2.2.1 Int JsonValue i32Codec range1to30 JsonOps
      (JsonValue.number ((15 : Int) : Rat)) 15 (by decide) (by decide)⟩

/-- C4: invoking the recursive-codec placeholder while the shared cell is
still uninitialized panics (a fatal outcome distinct from every
`DataResult`-carrying outcome — the panic outcome is never equal to a
returned result), with the source's message; once the cell is backpatched
with the built codec, every encode/decode call through the placeholder
delegates exactly to the built codec, never reaching the uninitialized
branch; and every ordinary codec call returns its `DataResult` — lifted
calls never panic, so the uninitialized placeholder is the only
non-`Result` failure path of the embedded operations. -/
theorem recursive_placeholder_spec :
    ∀ (α T : Type) (ops : CodecOps T) (v : α) (t : T),
      (recursivePlaceholder (none : Option (PCodec α T))).encode ops v =
        RunResult.panicked "tried to decode before initialization" ∧
      (recursivePlaceholder (none : Option (PCodec α T))).decode ops t =
        RunResult.panicked "tried to decode before initialization" ∧
      (∀ (msg : String) (r : DataResult T),
        RunResult.panicked msg ≠ RunResult.ok r) ∧
      (∀ built : PCodec α T,
        (recursivePlaceholder (some built)).encode ops v = built.encode ops v ∧
        (recursivePlaceholder (some built)).decode ops t = built.decode ops t) ∧
      (∀ c : Codec α T,
        (Codec.lift c).encode ops v = RunResult.ok (c.encode ops v) ∧
        (Codec.lift c).decode ops t = RunResult.ok (c.decode ops t)) := by
  intro α T ops v t
  refine ⟨rfl, rfl, ?_, fun built => ⟨rfl, rfl⟩, fun c => ⟨rfl, rfl⟩⟩
  intro msg r h
  cases h

/-- Witness for C4: the uninitialized placeholder panics at the JSON
backend and the value 10, and after backpatching with the lifted `F64Codec`
the call delegates to it. -/
theorem recursive_placeholder_spec_witness :
    (recursivePlaceholder (none : Option (PCodec Rat JsonValue))).encode JsonOps 10 =
      RunResult.panicked "tried to decode before initialization" ∧
    (recursivePlaceholder (some (Codec.lift (F64Codec (T := JsonValue))))).encode
        JsonOps 10 =
      RunResult.ok (Except.ok (JsonValue.number 10)) :=
  ⟨(recursive_placeholder_spec Rat JsonValue JsonOps 10 (JsonValue.number 10)).1,
    ((recursive_placeholder_spec Rat JsonValue JsonOps 10
        (JsonValue.number 10)).2.2.2.1 (Codec.lift F64Codec)).1⟩

/-- On the JSON backend, `create_number` builds exactly the number node and
`get_number` reads it back. -/
lemma JsonOps_number (q : Rat) :
    JsonOps.create_number q = JsonValue.number q ∧
    JsonOps.get_number (JsonValue.number q) = Except.ok q := ⟨rfl, rfl⟩

/-- On the JSON backend, `create_list` builds exactly the list node. -/
lemma JsonOps_create_list (xs : List JsonValue) :
    JsonOps.create_list xs = JsonValue.arr xs := rfl

/-- Truncation toward zero of an integer cast into the rationals is that
integer. -/
lemma ratTrunc_intCast (v : Int) : ratTrunc ((v : Int) : Rat) = v := by
  simp [ratTrunc, Rat.num_intCast, Rat.den_intCast]

/-- The saturating cast is the identity on integers within the bounds. -/
lemma castF64ToInt_of_in_bounds (lo hi v : Int) (hlo : lo ≤ v) (hhi : v ≤ hi) :
    castF64ToInt lo hi ((v : Int) : Rat) = v := by
  simp only [castF64ToInt, ratTrunc_intCast]
  omega

/-- C2 counterexample: the claim asserts every `i64` and `u64` value
round-trips through the numeric codecs, but they pass through `f64`:
`2^53 + 1` is not representable as a double, encodes to the rounded number
`2^53`, and decodes back to `2^53 ≠ 2^53 + 1` — through both the `i64` and
the `u64` codec. -/
theorem codec_roundtrip_counterexample :
    jsonRoundTrip i64Codec (2 ^ 53 + 1) = Except.ok (2 ^ 53) ∧
    jsonRoundTrip u64Codec (2 ^ 53 + 1) = Except.ok (2 ^ 53) ∧
    (2 ^ 53 : Int) ≠ 2 ^ 53 + 1 := ⟨by decide, by decide, by decide⟩

/-- C2 amended: the round-trip law `decode(encode(v)) = Ok v` holds for the
primitive codecs at every value (every number, string and boolean), and for
the integer numeric codecs at every value exactly representable in `f64`
(in particular every value of magnitude at most `2^53`; values above that,
reachable through the `i64`/`u64` codecs, are rounded and need not
round-trip); every combinator preserves the law: list, pair, `xmap` (when
the caller-guaranteed inverse identity holds at the value), `bounded` (at
in-range values), `dynamic`, `arc`, `try_else`, `or_else`, and `either`
(left values, and right values whose encoding the left arm rejects). -/
theorem codec_roundtrip_amended :
    (∀ q : Rat, RoundTrips JsonOps F64Codec q) ∧
    (∀ s : String, RoundTrips JsonOps StringCodec s) ∧
    (∀ b : Bool, RoundTrips JsonOps BoolCodec b) ∧
    (∀ (lo hi v : Int), lo ≤ v → v ≤ hi → roundF64Int v = v →
      RoundTrips JsonOps (intNumberCodec lo hi) v) ∧
    (∀ (α : Type) (inner : Codec α JsonValue) (xs : List α),
      (∀ x ∈ xs, RoundTrips JsonOps inner x) →
        RoundTrips JsonOps (ListCodec inner) xs) ∧
    (∀ (L R : Type) (lc : Codec L JsonValue) (rc : Codec R JsonValue) (v : L × R),
      RoundTrips JsonOps lc v.1 → RoundTrips JsonOps rc v.2 →
        RoundTrips JsonOps (PairCodec lc rc) v) ∧
    (∀ (α β T : Type) (ops : CodecOps T) (inner : Codec α T)
        (f1 : α → β) (f2 : β → α) (v : β),
      RoundTrips ops inner (f2 v) → f1 (f2 v) = v →
        RoundTrips ops (XMapCodec inner f1 f2) v) ∧
    (∀ (α T : Type) [LinearOrder α] (ops : CodecOps T) (inner : Codec α T)
        (range : RangeB α) (v : α),
      range.containsV v = true → RoundTrips ops inner v →
        RoundTrips ops (BoundedCodec inner range) v) ∧
    (∀ (α T : Type) (ops : CodecOps T) (c : Codec α T) (v : α),
      RoundTrips ops c v →
        RoundTrips ops (DynamicCodec c) v ∧ RoundTrips ops (ArcCodec c) v) ∧
    (∀ (α T : Type) (ops : CodecOps T) (lc rc : Codec α T) (v : α),
      RoundTrips ops lc v → RoundTrips ops (TryElseCodec lc rc) v) ∧
    (∀ (α T : Type) (ops : CodecOps T) (c : Codec α T) (d : Unit → α) (v : α),
      RoundTrips ops c v → RoundTrips ops (OrElseCodec c d) v) ∧
    (∀ (α β T : Type) (ops : CodecOps T) (lc : Codec α T) (rc : Codec β T) (a : α),
      RoundTrips ops lc a → RoundTrips ops (EitherCodec lc rc) (Sum.inl a)) ∧
    (∀ (α β T : Type) (ops : CodecOps T) (lc : Codec α T) (rc : Codec β T)
        (b : β) (t : T) (e : DataError),
      rc.encode ops b = Except.ok t → rc.decode ops t = Except.ok b →
        lc.decode ops t = Except.error e →
          RoundTrips ops (EitherCodec lc rc) (Sum.inr b)) := by
  refine ⟨?_, ?_, ?_, ?_, ?_, ?_, ?_, ?_, ?_, ?_, ?_, ?_, ?_⟩
  · intro q
    exact ⟨JsonValue.number q, rfl, rfl⟩
  · intro s
    exact ⟨JsonValue.str s, rfl, rfl⟩
  · intro b
    exact ⟨JsonValue.bool b, rfl, rfl⟩
  · intro lo hi v hlo hhi hround
    refine ⟨JsonValue.number ((v : Int) : Rat), ?_, ?_⟩
    · simp [intNumberCodec, NumberCodec, intConvertable, hround]
      exact (JsonOps_number ((v : Int) : Rat)).1
    · simp [intNumberCodec, NumberCodec, intConvertable,
        (JsonOps_number ((v : Int) : Rat)).2, Except.map,
        castF64ToInt_of_in_bounds lo hi v hlo hhi]
  · intro α inner xs h
    induction xs with
    | nil => exact ⟨JsonValue.arr [], rfl, rfl⟩
    | cons x rest ih =>
      obtain ⟨t, hxe, hxd⟩ := h x (by simp)
      obtain ⟨u, hre, hrd⟩ := ih (fun y hy => h y (by simp [hy]))
      rcases hts : encodeElems inner JsonOps rest with e | ts
      · simp [ListCodec, hts] at hre
      · have hu : u = JsonValue.arr ts := by
          simp [ListCodec, hts, JsonOps_create_list] at hre
          exact hre.symm
        have hds : decodeElems inner JsonOps ts = Except.ok rest := by
          rw [hu] at hrd
          simpa [ListCodec, JsonOps_get_list] using hrd
        refine ⟨JsonValue.arr (t :: ts), ?_, ?_⟩
        · simp [ListCodec, encodeElems, hxe, hts, JsonOps_create_list]
        · simp [ListCodec, JsonOps_get_list, decodeElems, hxd, hds]
  · intro L R lc rc v hL hR
    obtain ⟨v1, v2⟩ := v
    obtain ⟨l, hle, hld⟩ := hL
    obtain ⟨r, hre, hrd⟩ := hR
    refine ⟨JsonValue.obj [("left", l), ("right", r)], ?_, ?_⟩
    · simp only [PairCodec] at hle hre ⊢
      simp [hle, hre, JsonOps_create_map]
    · simp [PairCodec, JsonOps_get_map, MapView.get, List.lookup, hld, hrd]
  · intro α β T ops inner f1 f2 v hrt hid
    obtain ⟨t, he, hd⟩ := hrt
    exact ⟨t, by simpa [XMapCodec] using he, by simp [XMapCodec, hd, Except.map, hid]⟩
  · intro α T _ ops inner range v hc hrt
    obtain ⟨t, he, hd⟩ := hrt
    exact ⟨t, by simp [BoundedCodec, hc, he], by simp [BoundedCodec, hd, hc]⟩
  · intro α T ops c v hrt
    obtain ⟨t, he, hd⟩ := hrt
    exact ⟨⟨t, he, hd⟩, ⟨t, he, hd⟩⟩
  · intro α T ops lc rc v hrt
    obtain ⟨t, he, hd⟩ := hrt
    exact ⟨t, by simp [TryElseCodec, he], by simp [TryElseCodec, hd]⟩
  · intro α T ops c d v hrt
    obtain ⟨t, he, hd⟩ := hrt
    exact ⟨t, by simpa [OrElseCodec] using he, by simp [OrElseCodec, hd]⟩
  · intro α β T ops lc rc a hrt
    obtain ⟨t, he, hd⟩ := hrt
    exact ⟨t, by simpa [EitherCodec] using he, by simp [EitherCodec, hd]⟩
  · intro α β T ops lc rc b t e henc hdec hlfail
    exact ⟨t, by simpa [EitherCodec] using henc,
      by simp [EitherCodec, hlfail, hdec, Except.map]⟩

/-- Witness for C2: the amended numeric round-trip applied at the `i64`
bounds and the value `10`, which is exactly representable. -/
theorem codec_roundtrip_amended_witness :
    RoundTrips JsonOps (intNumberCodec (-(2 ^ 63)) (2 ^ 63 - 1)) 10 :=
  codec_roundtrip_amended.2.2.2.1 (-(2 ^ 63)) (2 ^ 63 - 1) 10
    (by decide) (by decide) (by decide)
